import Mathlib

/-!
Verification of the static ELF linker core (src/math.rs, src/section.rs,
src/relocation.rs, src/name_resolution.rs, src/write_elf64.rs, src/main.rs).
The Rust code is shallowly embedded: u64/usize values become `Nat`, i64 values
become `Int` (with explicit wrapping modulo 2^64 where the Rust casts wrap),
and fallible code (Rust panics and Results) is modelled with `Option` and
explicit outcome types.
-/

namespace ElfLinker

/-! ## src/math.rs -/

/-- `align_up` from src/math.rs.  The Rust body is
`let over = n % alignment; if over == 0 { n } else { n - over + alignment }`.
In Rust, `%` with a zero divisor panics, so the embedding returns `none`
when `alignment = 0`; otherwise it returns the Rust value. -/
def align_up (n alignment : Nat) : Option Nat :=
  if alignment = 0 then none
  else
    let over := n % alignment
    if over = 0 then some n else some (n - over + alignment)

/-! ## src/permissions.rs -/

/-- `Permissions` from src/permissions.rs. -/
structure Permissions where
  read : Bool
  write : Bool
  execute : Bool
deriving DecidableEq

/-- `Permissions::relax` from src/permissions.rs: bitwise OR of the triples. -/
def Permissions.relax (a b : Permissions) : Permissions :=
  ⟨a.read || b.read, a.write || b.write, a.execute || b.execute⟩

/-! ## src/relocation.rs: data types -/

/-- `RelativeTo` from src/relocation.rs. -/
inductive RelativeTo where
  | Section (index : Nat)
  | Symbol (name : String)
deriving DecidableEq

/-- `Relocate` from src/relocation.rs.  `patch_offset` and `mode` are u64/u32,
`relative_offset` (the addend) is i64 and is kept as a mathematical `Int`. -/
structure Relocate where
  patch_offset : Nat
  mode : Nat
  relative_to : RelativeTo
  relative_offset : Int
deriving DecidableEq

/-! ## src/section.rs: chunks and patches -/

/-- `Patch` from src/section.rs: an offset and the replacing bytes
(each byte a `Nat` below 256). -/
structure Patch where
  offset : Nat
  bytes : List Nat
deriving DecidableEq

/-- `InvalidPatch` from src/section.rs. -/
inductive InvalidPatch where
  | Overlapping
  | NotInRange
deriving DecidableEq

/-- `SectionChunk` from src/section.rs.  `range_len` is the length of
`range_in_input` (the borrowed byte range); the backing bytes themselves are
not needed for the claims below. -/
structure SectionChunk where
  input : Nat
  range_len : Nat
  section_index : Nat
  alignment : Nat
  permissions : Permissions
  relocations : List Relocate
  patches : List Patch
deriving DecidableEq

/-- `SectionChunk::size`: `range_in_input.len()`. -/
def SectionChunk.size (c : SectionChunk) : Nat := c.range_len

/-- Outcome of `SectionChunk::patch`: `ok` is `Ok(())` together with the
mutated chunk, `invalid` is `Err(InvalidPatch)`, and `panic` models the Rust
panic that aborts the process (here: the `self.patches[index - 1]` index
underflow). -/
inductive PatchOutcome where
  | ok (c : SectionChunk)
  | invalid (e : InvalidPatch)
  | panic
deriving DecidableEq

/-- `SectionChunk::patch` from src/section.rs, line for line:
the bounds check uses `>=` (so a patch ending exactly at `size` is rejected),
`partition_point` is modelled by the length of the sorted prefix with
`offset < at` (Rust performs a binary search, which agrees with this on the
partitioned lists reached in the claims), `patches[index - 1]` with
`index = 0` is the panicking usize underflow, and a successful insert is a
`push` to the end of the list, exactly as in the source. -/
def SectionChunk.patch (c : SectionChunk) (at_ : Nat) (bytes : List Nat) :
    PatchOutcome :=
  if at_ + bytes.length ≥ c.size then .invalid .NotInRange
  else if c.patches.isEmpty then .ok { c with patches := c.patches ++ [⟨at_, bytes⟩] }
  else
    let index := (c.patches.takeWhile (fun p => p.offset < at_)).length
    if index = 0 then .panic
    else
      match c.patches.get? (index - 1) with
      | none => .panic
      | some prev =>
        if prev.offset + prev.bytes.length ≥ at_ then .invalid .Overlapping
        else
          match c.patches.get? index with
          | some next =>
            if at_ + bytes.length > next.offset then .invalid .Overlapping
            else .ok { c with patches := c.patches ++ [⟨at_, bytes⟩] }
          | none => .ok { c with patches := c.patches ++ [⟨at_, bytes⟩] }

/-! ## src/section.rs: sections, segments, linked program -/

/-- `Section` from src/section.rs (the `permissions` field is the stored
field, set to the default by `combine_sections`; the derived union is
`Section.perms` below). -/
structure Section where
  name : String
  chunks : List SectionChunk
  permissions : Permissions
deriving DecidableEq

/-- `Section::permissions()`: relax (union) over the chunks, starting from
`Permissions::default()`. -/
def Section.perms (s : Section) : Permissions :=
  s.chunks.foldl (fun p c => p.relax c.permissions) ⟨false, false, false⟩

/-- `Section::alignment()`: maximum chunk alignment, `unwrap_or(0)`
(for `Nat`, folding `max` from 0 is exactly this). -/
def Section.alignment (s : Section) : Nat :=
  (s.chunks.map SectionChunk.alignment).foldl max 0

/-- `Section::size()`: walk the chunks, aligning a running cursor up to each
chunk alignment, then adding the chunk size. -/
def Section.size (s : Section) : Option Nat :=
  s.chunks.foldlM
    (fun result c => do
      let r ← align_up result c.alignment
      pure (r + c.size))
    0

/-- `Segment` from src/section.rs. -/
structure Segment where
  sections : List Section
deriving DecidableEq

/-- `Segment::alignment()`. -/
def Segment.alignment (g : Segment) : Nat :=
  (g.sections.map Section.alignment).foldl max 0

/-- `Segment::size()`: like `Section::size` over the sections. -/
def Segment.size (g : Segment) : Option Nat :=
  g.sections.foldlM
    (fun result s => do
      let r ← align_up result s.alignment
      let sz ← s.size
      pure (r + sz))
    0

/-- `Segment::permissions()`: permissions of the first section,
`unwrap_or_default`. -/
def Segment.perms (g : Segment) : Permissions :=
  (g.sections.head?.map Section.perms).getD ⟨false, false, false⟩

/-- `LinkedProgram` from src/section.rs. -/
structure LinkedProgram where
  segments : List Segment
deriving DecidableEq

/-- `Config` from src/config.rs. -/
structure Config where
  base_addr : Nat
  segment_file_align : Nat
  page_size : Nat
deriving DecidableEq

/-! ## `LinkedProgram::iter_with_positions` (src/section.rs)

The three nested `scan`s are unrolled into recursions.  In each scan the
state variable holds the start address yielded for the PREVIOUS element;
for every element after the first the source first aligns that previous
START to the current element alignment, then adds the previous element
size, then aligns again.  Segments start at 0 and do not align the first
segment. -/

/-- One element yielded by `iter_with_positions` (`ItChunk` in the source,
keeping the base-relative start addresses and the chunk). -/
structure ItChunk where
  segment_start : Nat
  section_start : Nat
  chunk_start : Nat
  chunk : SectionChunk
deriving DecidableEq

/-- Chunk starts after the first chunk: state is the previous chunk start. -/
def chunkStartsFrom (prevStart prevSize : Nat) :
    List SectionChunk → Option (List Nat)
  | [] => some []
  | c :: rest => do
      let a ← align_up prevStart c.alignment
      let s ← align_up (a + prevSize) c.alignment
      let tail ← chunkStartsFrom s c.size rest
      pure (s :: tail)

/-- Chunk starts within a section, first chunk aligned from the section
start. -/
def chunkStarts (sectionStart : Nat) : List SectionChunk → Option (List Nat)
  | [] => some []
  | c :: rest => do
      let s ← align_up sectionStart c.alignment
      let tail ← chunkStartsFrom s c.size rest
      pure (s :: tail)

/-- Section starts after the first section: state is the previous section
start, and the previous section size is recomputed via `Section::size`. -/
def sectionStartsFrom (prevStart : Nat) (prev : Section) :
    List Section → Option (List Nat)
  | [] => some []
  | s :: rest => do
      let a ← align_up prevStart s.alignment
      let psz ← prev.size
      let st ← align_up (a + psz) s.alignment
      let tail ← sectionStartsFrom st s rest
      pure (st :: tail)

/-- Section starts within a segment. -/
def sectionStarts (segmentStart : Nat) : List Section → Option (List Nat)
  | [] => some []
  | s :: rest => do
      let st ← align_up segmentStart s.alignment
      let tail ← sectionStartsFrom st s rest
      pure (st :: tail)

/-- Segment starts after the first segment: the previous start plus the
previous segment size, aligned to `max(alignment, page_size)`. -/
def segmentStartsFrom (cfg : Config) (prevStart : Nat) (prev : Segment) :
    List Segment → Option (List Nat)
  | [] => some []
  | g :: rest => do
      let psz ← prev.size
      let st ← align_up (prevStart + psz) (max g.alignment cfg.page_size)
      let tail ← segmentStartsFrom cfg st g rest
      pure (st :: tail)

/-- Segment starts: the first segment starts at 0 unaligned. -/
def segmentStarts (cfg : Config) : List Segment → Option (List Nat)
  | [] => some []
  | g :: rest => do
      let tail ← segmentStartsFrom cfg 0 g rest
      pure (0 :: tail)

/-- `LinkedProgram::iter_with_positions`: the flattened list of `ItChunk`s in
program order, or `none` when any `align_up` in the walk panics. -/
def iter_with_positions (cfg : Config) (p : LinkedProgram) :
    Option (List ItChunk) := do
  let segStarts ← segmentStarts cfg p.segments
  let perSeg ← (p.segments.zip segStarts).mapM (fun sg => do
    let secStarts ← sectionStarts sg.2 sg.1.sections
    let perSec ← (sg.1.sections.zip secStarts).mapM (fun sc => do
      let chStarts ← chunkStarts sc.2 sc.1.chunks
      pure ((sc.1.chunks.zip chStarts).map
        (fun cc => ItChunk.mk sg.2 sc.2 cc.2 cc.1)))
    pure perSec.flatten)
  pure perSeg.flatten

/-! ## `lookup_input_section_addr` (src/relocation.rs)

A separate forward walk: aligns a running address to each section and chunk
alignment, adds chunk sizes, and returns on the first chunk matching
`(input, section_index)`.  After a segment without a match the source sets
`addr = align_up(segment.size(), max(segment.alignment(), page_size))`,
discarding the accumulated address.  `Sum.inl` carries a found address,
`Sum.inr` the running address; the outer `Option` is the `align_up` panic. -/

def lookupChunks (addr input sidx : Nat) :
    List SectionChunk → Option (Sum Nat Nat)
  | [] => some (Sum.inr addr)
  | c :: rest => do
      let a ← align_up addr c.alignment
      if c.input = input ∧ c.section_index = sidx then pure (Sum.inl a)
      else lookupChunks (a + c.size) input sidx rest

def lookupSections (addr input sidx : Nat) :
    List Section → Option (Sum Nat Nat)
  | [] => some (Sum.inr addr)
  | s :: rest => do
      let a ← align_up addr s.alignment
      match ← lookupChunks a input sidx s.chunks with
      | Sum.inl found => pure (Sum.inl found)
      | Sum.inr a2 => lookupSections a2 input sidx rest

def lookupSegments (cfg : Config) (addr input sidx : Nat) :
    List Segment → Option (Option Nat)
  | [] => some none
  | g :: rest => do
      match ← lookupSections addr input sidx g.sections with
      | Sum.inl found => pure (some found)
      | Sum.inr _ => do
          let sz ← g.size
          let a2 ← align_up sz (max g.alignment cfg.page_size)
          lookupSegments cfg a2 input sidx rest

/-- `lookup_input_section_addr` from src/relocation.rs. -/
def lookup_input_section_addr (p : LinkedProgram) (cfg : Config)
    (input sidx : Nat) : Option (Option Nat) :=
  lookupSegments cfg 0 input sidx p.segments

/-! ## Concrete fixtures used by the layout claims -/

/-- Default config from src/main.rs. -/
def cfgDefault : Config := ⟨0x400000, 0x1000, 0x1000⟩

/-- An r-x chunk of input 0 with the given source section index, alignment
and size, no relocations, no patches. -/
def mkChunk (sidx align len : Nat) : SectionChunk :=
  ⟨0, len, sidx, align, ⟨true, false, true⟩, [], []⟩

/-- A linked program with one segment holding two sections.  The first
section has chunks of (alignment, size) = (1,4), (4,4), (8,1); the second a
single chunk (1,1).  All alignments are powers of two. -/
def progA : LinkedProgram :=
  ⟨[⟨[⟨".text", [mkChunk 0 1 4, mkChunk 1 4 4, mkChunk 2 8 1],
        ⟨false, false, false⟩⟩,
     ⟨".text.x", [mkChunk 3 1 1], ⟨false, false, false⟩⟩]⟩]⟩

/-- A plain chunk of the given size holding the given patch list (input 0,
section 0, alignment 1). -/
def mkChunkP (len : Nat) (ps : List Patch) : SectionChunk :=
  ⟨0, len, 0, 1, ⟨true, false, true⟩, [], ps⟩

/-- A section holding a single chunk with the given alignment and size. -/
def secOneChunk (align len : Nat) : Section :=
  ⟨".text", [mkChunk 0 align len], ⟨false, false, false⟩⟩

/-! ## `apply_relocations`, `R_X86_64_PC32` arm (src/relocation.rs)

The Rust arm computes
`anchor as i64 + reloc.relative_offset + offset as i64 - cs as i64 - patch_pos as i64`,
converts the i64 result to i32 (`expect("Overflow")` is fatal) and installs
`final_value.to_le_bytes()` as a patch at `patch_pos`.  The u64-to-i64 casts
and the i64 arithmetic wrap modulo 2^64; since wrapping addition is
associative, the chain equals the mathematical sum wrapped once. -/

/-- Wrap a mathematical integer into the i64 value range. -/
def wrap64 (v : Int) : Int := (v + 2 ^ 63) % 2 ^ 64 - 2 ^ 63

/-- The i64 `final_value` of the `R_X86_64_PC32` arm, given the anchor
base-relative address, the symbol offset `st_value` (`offset` in the
source, 0 for a `Section` anchor), and the chunk start `cs`. -/
def pc32_value (anchor : Nat) (relative_offset : Int)
    (offset cs patch_pos : Nat) : Int :=
  wrap64 ((anchor : Int) + relative_offset + (offset : Int)
    - (cs : Int) - (patch_pos : Int))

/-- Little-endian byte list of length `k` of a natural number. -/
def leBytes : Nat → Nat → List Nat
  | 0, _ => []
  | k + 1, n => n % 256 :: leBytes k (n / 256)

/-- The `R_X86_64_PC32` arm of `apply_relocations`: compute the i64 value,
fail fatally (`none`) unless it fits in i32, otherwise produce the `Patch`
installed at `reloc.patch_offset` whose bytes are the 4 little-endian bytes
of the i32 (its two's-complement representative modulo 2^32).  The
surrounding zero-byte assertion and the `SectionChunk::patch` insertion are
modelled separately. -/
def apply_pc32 (r : Relocate) (anchor offset cs : Nat) : Option Patch :=
  let fv := pc32_value anchor r.relative_offset offset cs r.patch_offset
  if -2 ^ 31 ≤ fv ∧ fv < 2 ^ 31 then
    some ⟨r.patch_offset, leBytes 4 (fv % 2 ^ 32).toNat⟩
  else none

/-! ## src/name_resolution.rs: global symbol collection -/

def STB_GLOBAL : Nat := 1
def STV_HIDDEN : Nat := 2

/-- A symbol-table entry as exposed by the ELF decoder: the resolved
string-table name (`strtab.get_at(st_name).unwrap_or("")`), binding,
visibility, defining-section index and value. -/
structure Sym where
  name : String
  st_bind : Nat
  st_visibility : Nat
  st_shndx : Nat
  st_value : Nat
deriving DecidableEq

/-- `GlobalLocation` from src/main.rs: the defining input (by id) and the
index into its symbol table. -/
structure GlobalLocation where
  file : Nat
  symtab_index : Nat
deriving DecidableEq

/-- The global symbol table, keyed by name.  The Rust `HashMap` is modelled
as an association list; `insert` returning a previous value corresponds to
the key being present. -/
abbrev GlobalSymbolTable := List (String × GlobalLocation)

/-- The definition test of `extract_globals_from`:
`st_bind == STB_GLOBAL && st_visibility != STV_HIDDEN && st_shndx != 0`. -/
def isGlobalDef (s : Sym) : Bool :=
  s.st_bind == STB_GLOBAL && s.st_visibility != STV_HIDDEN && s.st_shndx != 0

/-- `extract_globals_from` from src/name_resolution.rs: iterate the symbol
table in order (`idx` threads the `enumerate()` index); every definition is
inserted under its name; if the name is already present the source panics
with "Duplicate definition" (`none`). -/
def extract_globals_from (file idx : Nat) (syms : List Sym)
    (tbl : GlobalSymbolTable) : Option GlobalSymbolTable :=
  match syms with
  | [] => some tbl
  | s :: rest =>
    if isGlobalDef s then
      if s.name ∈ tbl.map Prod.fst then none
      else extract_globals_from file (idx + 1) rest (tbl ++ [(s.name, ⟨file, idx⟩)])
    else extract_globals_from file (idx + 1) rest tbl

/-- The per-input loop of `extract_globals`. -/
def extract_globals_aux (inputs : List (Nat × List Sym))
    (tbl : GlobalSymbolTable) : Option GlobalSymbolTable :=
  match inputs with
  | [] => some tbl
  | p :: rest => do
      let tbl2 ← extract_globals_from p.1 0 p.2 tbl
      extract_globals_aux rest tbl2

/-- `extract_globals` from src/name_resolution.rs: fold all inputs into an
initially empty table. -/
def extract_globals (inputs : List (Nat × List Sym)) :
    Option GlobalSymbolTable :=
  extract_globals_aux inputs []

/-- The names of the qualifying definitions of one symbol table, in order. -/
def qualNames (syms : List Sym) : List String :=
  (syms.filter isGlobalDef).map Sym.name

/-- All qualifying definition names across the inputs, in input order. -/
def defsOf (inputs : List (Nat × List Sym)) : List String :=
  (inputs.map (fun p => qualNames p.2)).flatten

/-! ## src/write_elf64.rs: program headers -/

/-- A `PT_LOAD` program header entry as written by `write_program_header`. -/
structure ProgramHeader where
  p_type : Nat
  p_flags : Nat
  p_offset : Nat
  p_vaddr : Nat
  p_paddr : Nat
  p_filesz : Nat
  p_memsz : Nat
  p_align : Nat
deriving DecidableEq

/-- `(read as u32) << 2 | (write as u32) << 1 | (execute as u32)`; the bits
are disjoint so the shifts-and-or equal this sum. -/
def Permissions.flags (p : Permissions) : Nat :=
  p.read.toNat * 4 + p.write.toNat * 2 + p.execute.toNat

/-- `LinkedProgram::segment_sizes`: each segment size aligned up to
`segment_file_align`. -/
def segment_sizes (cfg : Config) (p : LinkedProgram) : Option (List Nat) :=
  p.segments.mapM (fun g => do
    let sz ← g.size
    align_up sz cfg.segment_file_align)

/-- The program-header loop of `write` (src/write_elf64.rs): `vaddr` is the
running `segment_vaddr` (starting at `base_addr`), aligned up to
`page_size` before each segment and advanced by
`align_up(segment.size(), page_size)` after it; `p_offset` is
`pos_first_content` plus the file sizes of the previous segments;
`p_filesz = align_up(segment.size(), segment_file_align)` while
`p_memsz = align_up(segment.size(), page_size)`, as in the source. -/
def writeHeadersFrom (cfg : Config) (pfc : Nat) (sizes : List Nat)
    (i vaddr : Nat) : List Segment → Option (List ProgramHeader)
  | [] => some []
  | g :: rest => do
      let va ← align_up vaddr cfg.page_size
      let sz ← g.size
      let filesz ← align_up sz cfg.segment_file_align
      let memsz ← align_up sz cfg.page_size
      let tail ← writeHeadersFrom cfg pfc sizes (i + 1) (va + memsz) rest
      pure ({ p_type := 1, p_flags := g.perms.flags,
              p_offset := pfc + (sizes.take i).sum,
              p_vaddr := va, p_paddr := va,
              p_filesz := filesz, p_memsz := memsz,
              p_align := cfg.page_size } :: tail)

/-- The program-header table emitted by `write`:
`pos_first_content = align_up(0x40 + 0x38 * segment_count, segment_file_align)`
and then the per-segment loop. -/
def write_program_headers (cfg : Config) (p : LinkedProgram) :
    Option (List ProgramHeader) := do
  let pfc ← align_up (0x40 + p.segments.length * 0x38) cfg.segment_file_align
  let sizes ← segment_sizes cfg p
  writeHeadersFrom cfg pfc sizes 0 cfg.base_addr p.segments

/-- What the amended C5 asserts of one emitted header and its segment. -/
def phSpec (cfg : Config) (ph : ProgramHeader) (g : Segment) : Prop :=
  ∃ sz, g.size = some sz ∧
    align_up sz cfg.segment_file_align = some ph.p_filesz ∧
    align_up sz cfg.page_size = some ph.p_memsz ∧
    (cfg.segment_file_align = cfg.page_size → ph.p_filesz = ph.p_memsz)

/-- A config with `segment_file_align = 1` and `page_size = 2`, under which
`p_filesz` and `p_memsz` differ. -/
def cfgSplit : Config := ⟨0, 1, 2⟩

/-- A linked program with one segment of size 1. -/
def progOne : LinkedProgram := ⟨[⟨[secOneChunk 1 1]⟩]⟩

/-! ## src/main.rs and src/section.rs: section-name collection and assembly -/

def SHT_PROGBITS : Nat := 1
def SHF_WRITE : Nat := 1
def SHF_EXECINSTR : Nat := 4

/-- A section header as exposed by the ELF decoder.  `sh_name` is the
resolved name (`shdr_strtab.get_at`), `range_len` the length of
`file_range()`, and `relocations` the records that `relocation::extract`
produces for this section (§4.2), carried as data. -/
structure SectionHeader where
  sh_name : Option String
  sh_type : Nat
  sh_flags : Nat
  sh_addr : Nat
  sh_addralign : Nat
  range_len : Nat
  relocations : List Relocate
deriving DecidableEq

/-- One relocatable input: its id and its section headers in order. -/
structure InputElf where
  id : Nat
  section_headers : List SectionHeader
deriving DecidableEq

/-- `build_section_from` (src/section.rs): walk the section headers
(`idx` threads `enumerate()`), keep `SHT_PROGBITS` headers whose name
matches, assert `sh_addr == 0` (`none` on violation, the fatal
"Fixed-addess blocks are not supported" panic), and emit a chunk with the
header alignment, permissions from the flags, and the extracted
relocations. -/
def build_section_from (input idx : Nat) (hdrs : List SectionHeader)
    (section_name : String) : Option (List SectionChunk) :=
  match hdrs with
  | [] => some []
  | sh :: rest =>
    if sh.sh_type ≠ SHT_PROGBITS then
      build_section_from input (idx + 1) rest section_name
    else
      match sh.sh_name with
      | none => build_section_from input (idx + 1) rest section_name
      | some nm =>
        if nm ≠ section_name then
          build_section_from input (idx + 1) rest section_name
        else if sh.sh_addr ≠ 0 then none
        else do
          let tail ← build_section_from input (idx + 1) rest section_name
          pure ({ input := input, range_len := sh.range_len,
                  section_index := idx, alignment := sh.sh_addralign,
                  permissions :=
                    ⟨true, (sh.sh_flags &&& SHF_WRITE) != 0,
                      (sh.sh_flags &&& SHF_EXECINSTR) != 0⟩,
                  relocations := sh.relocations,
                  patches := [] } :: tail)

/-- `build_section_group`: chunks for one output section name, inputs in
order. -/
def build_section_group (inputs : List InputElf) (section_name : String) :
    Option (List SectionChunk) := do
  let parts ← inputs.mapM
    (fun e => build_section_from e.id 0 e.section_headers section_name)
  pure parts.flatten

/-- The `build_section_by_name` closure of `combine_sections`. -/
def build_section_by_name (inputs : List InputElf) (section_name : String) :
    Option Section := do
  let chunks ← build_section_group inputs section_name
  pure { name := section_name, chunks := chunks,
         permissions := ⟨false, false, false⟩ }

/-- `str::starts_with`, modelled on the character lists of the strings. -/
def strStartsWith (s p : String) : Bool := p.data.isPrefixOf s.data

/-- One group iteration of `combine_sections`: the exact match first, then
every observed name starting with `group_name ++ "."`, in the ITERATION
ORDER of the name set.  The source iterates a `HashSet<String>` here, whose
order is not stabilised; the embedding therefore takes the iteration order
as the list `section_names`. -/
def combine_group (inputs : List InputElf) (section_names : List String)
    (group_name : String) : Option (List Section) := do
  let exact ←
    if group_name ∈ section_names then do
      let s ← build_section_by_name inputs group_name
      pure [s]
    else pure []
  let matched ←
    (section_names.filter (fun n => strStartsWith n (group_name ++ "."))).mapM
      (build_section_by_name inputs)
  pure (exact ++ matched)

/-- `combine_sections` (src/section.rs): the fixed group order `.entry`,
`.text`, `.rodata`, each expanded by `combine_group`. -/
def combine_sections (inputs : List InputElf) (section_names : List String) :
    Option (List Section) := do
  let groups ← ([".entry", ".text", ".rodata"]).mapM
    (combine_group inputs section_names)
  pure groups.flatten

/-- A PROGBITS header with the given name, address 0, alignment 1, size 4. -/
def shdrNamed (nm : String) : SectionHeader := ⟨some nm, 1, 0, 0, 1, 4, []⟩

/-- One input contributing the two sections `.text.a` and `.text.b`. -/
def inputAB : InputElf := ⟨0, [shdrNamed ".text.a", shdrNamed ".text.b"]⟩

end ElfLinker

namespace ElfLinker

/-! ## Theorems -/

/-- C3: the claim says the layout is monotonic: chunk A before chunk B in
program order implies `chunk_start A + size A ≤ chunk_start B`.  The code
violates this: in `progA` (one segment, two sections, power-of-two
alignments), `iter_with_positions` yields chunk starts 0, 4, 16, 9 for
chunks of sizes 4, 4, 1, 1, so the third chunk (start 16, size 1) ends at
17, strictly after the start 9 of the fourth chunk.  The cause: for each
element after the first, the scan aligns the previous element START to the
current alignment before adding the previous size, inflating chunk
positions past `Section::size`, which the section walk uses. -/
theorem c3_layout_not_monotonic :
    (iter_with_positions cfgDefault progA).map
        (fun l => l.map (fun it => (it.chunk_start, it.chunk.size)))
      = some [(0, 4), (4, 4), (16, 1), (9, 1)] ∧ 9 < 16 + 1 := by
  exact ⟨rfl, by decide⟩

/-- C2: the claim says `lookup_input_section_addr` (used by the Relocator
for `Section{index}` anchors) agrees with the chunk starts yielded by
`iter_with_positions`.  On `progA` the chunk with `input = 0` and
`section_index = 2` is assigned chunk_start 16 by the iterator, while
`lookup_input_section_addr` returns 8: the lookup walks a cursor-style
layout (align, add size) while the iterator double-aligns from the previous
chunk START, so the two walks disagree. -/
theorem c2_lookup_vs_iterator_mismatch :
    lookup_input_section_addr progA cfgDefault 0 2 = some (some 8) ∧
    (iter_with_positions cfgDefault progA).map
        (fun l => l.map (fun it => (it.chunk.section_index, it.chunk_start)))
      = some [(0, 0), (1, 4), (2, 16), (3, 9)] ∧ 8 < 16 :=
  ⟨rfl, rfl, by decide⟩

/-- C7: the claim (and §9 of the spec) says a patch may occupy the final
byte of a chunk.  The code checks `at + bytes.len() >= size` and therefore
rejects a 4-byte patch at offset 0 of a 4-byte chunk as `NotInRange`. -/
theorem c7_final_byte_patch_rejected :
    (mkChunkP 4 []).patch 0 [9, 9, 9, 9] = .invalid .NotInRange := rfl

/-- C10: the claim says a patch at an offset strictly below every stored
patch returns Ok or InvalidPatch.  The code computes `partition_point = 0`
for such an offset and then evaluates `self.patches[index - 1]`, a usize
underflow that panics.  Concretely: a chunk of size 10 with one patch at
offset 5 accepts that patch, and then patching offset 0 panics. -/
theorem c10_patch_before_first_panics :
    (mkChunkP 10 []).patch 5 [9] = .ok (mkChunkP 10 [⟨5, [9]⟩]) ∧
    (mkChunkP 10 [⟨5, [9]⟩]).patch 0 [9] = .panic :=
  ⟨rfl, rfl⟩

/-- C6: the claim says every successful patch keeps the patch list sorted by
offset.  The code appends with `push` instead of inserting at the partition
point: after the successful calls patch 1, patch 6, patch 3 on a chunk of
size 10 the stored offsets are [1, 6, 3], and 3 < 6, so the list is no
longer sorted, breaking the documented `Invariant: sorted` of the field. -/
theorem c6_patch_breaks_sorted_invariant :
    (mkChunkP 10 []).patch 1 [9] = .ok (mkChunkP 10 [⟨1, [9]⟩]) ∧
    (mkChunkP 10 [⟨1, [9]⟩]).patch 6 [9]
      = .ok (mkChunkP 10 [⟨1, [9]⟩, ⟨6, [9]⟩]) ∧
    (mkChunkP 10 [⟨1, [9]⟩, ⟨6, [9]⟩]).patch 3 [9]
      = .ok (mkChunkP 10 [⟨1, [9]⟩, ⟨6, [9]⟩, ⟨3, [9]⟩]) ∧
    ((mkChunkP 10 [⟨1, [9]⟩, ⟨6, [9]⟩, ⟨3, [9]⟩]).patches.map Patch.offset
      = [1, 6, 3] ∧ 3 < 6) :=
  ⟨rfl, rfl, rfl, rfl, by decide⟩

/-- C8: the claim says alignment 0 is treated as alignment 1, so aligning
up to 0 yields the input unchanged and layout computations over a chunk
with `sh_addralign == 0` complete.  The Rust `%` operator panics on a zero
divisor, so `align_up(5, 0)` aborts (modelled as `none`), and
`Section::size` of a section holding a chunk of alignment 0 aborts too. -/
theorem c8_align_up_zero_faults :
    align_up 5 0 = none ∧ (secOneChunk 0 3).size = none :=
  ⟨rfl, rfl⟩

/-- Counterexample for C1 as stated: the claim demands a fatal failure
whenever the mathematical value
`V = A + relative_offset + S - chunk_start - patch_offset` does not fit in
signed 32-bit.  With anchor 0, addend 2^31, `st_value = 2^64 - 1` (a legal
u64 symbol value), chunk start 0 and patch offset 0, the mathematical value
is `2^64 + 2^31 - 1`, far outside i32, yet the Rust cast `offset as i64`
wraps `2^64 - 1` to -1, the i64 `final_value` becomes `2^31 - 1`, the
`try_into::<i32>` succeeds, and the bytes FF FF FF 7F are written: the
link does not fail.  No intermediate i64 sum leaves the i64 range, so this
holds in debug builds as well as release. -/
theorem c1_wrapped_overflow_counterexample :
    apply_pc32 ⟨0, 2, RelativeTo.Section 0, 2 ^ 31⟩ 0 (2 ^ 64 - 1) 0
      = some ⟨0, [255, 255, 255, 127]⟩ ∧
    (2 ^ 31 : Int) ≤ (0 : Int) + (2 ^ 31 : Int) + ((2 ^ 64 - 1 : Nat) : Int)
      - (0 : Int) - (0 : Int) :=
  ⟨rfl, by decide⟩

/-- C1 (amended): for EVERY `R_X86_64_PC32` relocation, the i64 value the
code computes is `W = wrap64 (A + relative_offset + S - chunk_start -
patch_offset)`, the mathematical value wrapped into the signed-64-bit
range (the u64-to-i64 casts and the i64 arithmetic wrap modulo 2^64); the
link fails fatally exactly when `W` does not fit in signed 32-bit, and
otherwise the 4 little-endian bytes of `W` (its two's-complement
representative) are installed at `patch_offset`.  Whenever the
mathematical value itself lies in the i64 range, `W` equals it, which
recovers the claim as written. -/
theorem c1_amended_pc32_value (r : Relocate) (anchor offset cs : Nat) :
    ((-2 ^ 31 ≤ wrap64 ((anchor : Int) + r.relative_offset + (offset : Int)
        - (cs : Int) - (r.patch_offset : Int)) ∧
      wrap64 ((anchor : Int) + r.relative_offset + (offset : Int)
        - (cs : Int) - (r.patch_offset : Int)) < 2 ^ 31) →
      apply_pc32 r anchor offset cs =
        some ⟨r.patch_offset,
          leBytes 4 ((wrap64 ((anchor : Int) + r.relative_offset
            + (offset : Int) - (cs : Int) - (r.patch_offset : Int))
              % 2 ^ 32).toNat)⟩) ∧
    (¬ (-2 ^ 31 ≤ wrap64 ((anchor : Int) + r.relative_offset + (offset : Int)
        - (cs : Int) - (r.patch_offset : Int)) ∧
      wrap64 ((anchor : Int) + r.relative_offset + (offset : Int)
        - (cs : Int) - (r.patch_offset : Int)) < 2 ^ 31) →
      apply_pc32 r anchor offset cs = none) ∧
    (-2 ^ 63 ≤ (anchor : Int) + r.relative_offset + (offset : Int)
        - (cs : Int) - (r.patch_offset : Int) →
      (anchor : Int) + r.relative_offset + (offset : Int)
        - (cs : Int) - (r.patch_offset : Int) < 2 ^ 63 →
      wrap64 ((anchor : Int) + r.relative_offset + (offset : Int)
        - (cs : Int) - (r.patch_offset : Int))
        = (anchor : Int) + r.relative_offset + (offset : Int)
          - (cs : Int) - (r.patch_offset : Int)) := by
  refine ⟨?_, ?_, ?_⟩
  · intro hc
    simp only [apply_pc32, pc32_value]
    rw [if_pos hc]
  · intro hc
    simp only [apply_pc32, pc32_value]
    rw [if_neg hc]
  · intro h1 h2
    unfold wrap64
    have h0 : (0 : Int) ≤ (anchor : Int) + r.relative_offset + (offset : Int)
        - (cs : Int) - (r.patch_offset : Int) + 2 ^ 63 := by linarith
    have hlt : (anchor : Int) + r.relative_offset + (offset : Int)
        - (cs : Int) - (r.patch_offset : Int) + 2 ^ 63 < 2 ^ 64 := by
      have : (2 : Int) ^ 63 + 2 ^ 63 = 2 ^ 64 := by norm_num
      linarith
    rw [Int.emod_eq_of_lt h0 hlt]
    ring

/-- Witness for the amended C1 at a concrete relocation: patch at offset 4,
addend -4, anchor 100, symbol offset 8, chunk start 0, so the wrapped value
is 100 and the installed bytes are [100, 0, 0, 0]. -/
theorem c1_amended_pc32_witness :
    apply_pc32 ⟨4, 2, RelativeTo.Symbol "f", -4⟩ 100 8 0
      = some ⟨4, [100, 0, 0, 0]⟩ := by
  have h := (c1_amended_pc32_value ⟨4, 2, RelativeTo.Symbol "f", -4⟩
    100 8 0).1 (by decide)
  exact h.trans (by decide)

theorem extract_globals_from_keys (syms : List Sym) :
    ∀ (file idx : Nat) (tbl tbl' : GlobalSymbolTable),
      extract_globals_from file idx syms tbl = some tbl' →
      tbl'.map Prod.fst = tbl.map Prod.fst ++ qualNames syms := by
  induction syms with
  | nil =>
    intro file idx tbl tbl' h
    simp only [extract_globals_from, Option.some.injEq] at h
    simp [← h, qualNames]
  | cons s rest ih =>
    intro file idx tbl tbl' h
    simp only [extract_globals_from] at h
    by_cases hq : isGlobalDef s
    · rw [if_pos hq] at h
      by_cases hm : s.name ∈ tbl.map Prod.fst
      · rw [if_pos hm] at h
        exact absurd h (by simp)
      · rw [if_neg hm] at h
        have hk := ih file (idx + 1) (tbl ++ [(s.name, ⟨file, idx⟩)]) tbl' h
        simp only [List.map_append, List.map_cons, List.map_nil] at hk
        simp [hk, qualNames, List.filter_cons, hq]
    · rw [if_neg hq] at h
      have hk := ih file (idx + 1) tbl tbl' h
      simp [hk, qualNames, List.filter_cons, hq]

theorem extract_globals_from_nodup (syms : List Sym) :
    ∀ (file idx : Nat) (tbl tbl' : GlobalSymbolTable),
      extract_globals_from file idx syms tbl = some tbl' →
      (tbl.map Prod.fst).Nodup → (tbl'.map Prod.fst).Nodup := by
  induction syms with
  | nil =>
    intro file idx tbl tbl' h hn
    simp only [extract_globals_from, Option.some.injEq] at h
    simpa [← h] using hn
  | cons s rest ih =>
    intro file idx tbl tbl' h hn
    simp only [extract_globals_from] at h
    by_cases hq : isGlobalDef s
    · rw [if_pos hq] at h
      by_cases hm : s.name ∈ tbl.map Prod.fst
      · rw [if_pos hm] at h
        exact absurd h (by simp)
      · rw [if_neg hm] at h
        refine ih file (idx + 1) _ tbl' h ?_
        simp only [List.map_append, List.map_cons, List.map_nil]
        rw [List.nodup_append]
        refine ⟨hn, List.nodup_singleton _, ?_⟩
        intro x hx hx1
        simp only [List.mem_singleton] at hx1
        exact hm (hx1 ▸ hx)
    · rw [if_neg hq] at h
      exact ih file (idx + 1) tbl tbl' h hn

theorem extract_globals_aux_keys (inputs : List (Nat × List Sym)) :
    ∀ (tbl tbl' : GlobalSymbolTable),
      extract_globals_aux inputs tbl = some tbl' →
      tbl'.map Prod.fst = tbl.map Prod.fst ++ defsOf inputs := by
  induction inputs with
  | nil =>
    intro tbl tbl' h
    simp only [extract_globals_aux, Option.some.injEq] at h
    simp [← h, defsOf]
  | cons p rest ih =>
    intro tbl tbl' h
    simp only [extract_globals_aux, Option.bind_eq_bind,
      Option.bind_eq_some] at h
    obtain ⟨tbl2, h2, h3⟩ := h
    have k2 := extract_globals_from_keys p.2 p.1 0 tbl tbl2 h2
    have k3 := ih tbl2 tbl' h3
    simp [k3, k2, defsOf, List.append_assoc]

theorem extract_globals_aux_nodup (inputs : List (Nat × List Sym)) :
    ∀ (tbl tbl' : GlobalSymbolTable),
      extract_globals_aux inputs tbl = some tbl' →
      (tbl.map Prod.fst).Nodup → (tbl'.map Prod.fst).Nodup := by
  induction inputs with
  | nil =>
    intro tbl tbl' h hn
    simp only [extract_globals_aux, Option.some.injEq] at h
    simpa [← h] using hn
  | cons p rest ih =>
    intro tbl tbl' h hn
    simp only [extract_globals_aux, Option.bind_eq_bind,
      Option.bind_eq_some] at h
    obtain ⟨tbl2, h2, h3⟩ := h
    exact ih tbl2 tbl' h3 (extract_globals_from_nodup p.2 p.1 0 tbl tbl2 h2 hn)

/-- C4: global symbol collection.  (1) On success the table keys are exactly
the names of the symbols with `st_bind == STB_GLOBAL`,
`st_visibility != STV_HIDDEN` and `st_shndx != 0`, in input order, and each
name appears at most once.  (2) If any name qualifies twice across the
inputs, collection fails fatally ("Duplicate definition").  (3) In
particular, if two distinct inputs both define the same name, collection
fails fatally. -/
theorem c4_global_symbol_collection (inputs : List (Nat × List Sym)) :
    (∀ tbl, extract_globals inputs = some tbl →
      tbl.map Prod.fst = defsOf inputs ∧ (tbl.map Prod.fst).Nodup) ∧
    (¬ (defsOf inputs).Nodup → extract_globals inputs = none) ∧
    (∀ (l1 : List (Nat × List Sym)) (p : Nat × List Sym)
        (l2 : List (Nat × List Sym)) (n : String),
      inputs = l1 ++ p :: l2 → n ∈ qualNames p.2 → n ∈ defsOf l2 →
      extract_globals inputs = none) := by
  have main : ∀ tbl, extract_globals inputs = some tbl →
      tbl.map Prod.fst = defsOf inputs ∧ (tbl.map Prod.fst).Nodup := by
    intro tbl h
    have hk := extract_globals_aux_keys inputs [] tbl h
    simp only [List.map_nil, List.nil_append] at hk
    exact ⟨hk, extract_globals_aux_nodup inputs [] tbl h (by simp)⟩
  have dup : ¬ (defsOf inputs).Nodup → extract_globals inputs = none := by
    intro hnd
    cases h : extract_globals inputs with
    | none => rfl
    | some tbl =>
      obtain ⟨hk, hn⟩ := main tbl h
      exact absurd (hk ▸ hn) hnd
  refine ⟨main, dup, ?_⟩
  intro l1 p l2 n hsplit hp hl2
  apply dup
  rw [hsplit]
  have hexp : defsOf (l1 ++ p :: l2)
      = defsOf l1 ++ (qualNames p.2 ++ defsOf l2) := by
    simp [defsOf]
  rw [hexp]
  intro hnd
  have hnd2 := hnd.of_append_right
  rw [List.nodup_append] at hnd2
  exact hnd2.2.2 hp hl2

/-- Witness for C4: two inputs both defining the global "dup" make
collection fail. -/
theorem c4_duplicate_witness :
    extract_globals [(0, [⟨"dup", 1, 0, 1, 0⟩]), (1, [⟨"dup", 1, 0, 2, 0⟩])]
      = none :=
  (c4_global_symbol_collection
      [(0, [⟨"dup", 1, 0, 1, 0⟩]), (1, [⟨"dup", 1, 0, 2, 0⟩])]).2.2
    [] (0, [⟨"dup", 1, 0, 1, 0⟩]) [(1, [⟨"dup", 1, 0, 2, 0⟩])] "dup"
    rfl (by decide) (by decide)

theorem writeHeadersFrom_spec (cfg : Config) (pfc : Nat) (sizes : List Nat)
    (segs : List Segment) :
    ∀ (i vaddr : Nat) (phs : List ProgramHeader),
      writeHeadersFrom cfg pfc sizes i vaddr segs = some phs →
      List.Forall₂ (phSpec cfg) phs segs := by
  induction segs with
  | nil =>
    intro i vaddr phs h
    simp only [writeHeadersFrom, Option.some.injEq] at h
    simp [← h]
  | cons g rest ih =>
    intro i vaddr phs h
    simp only [writeHeadersFrom, Option.bind_eq_bind, Option.bind_eq_some,
      Option.pure_def, Option.some.injEq] at h
    obtain ⟨va, hva, sz, hsz, filesz, hfs, memsz, hms, tail, htail, hphs⟩ := h
    subst hphs
    refine List.Forall₂.cons ?_ (ih (i + 1) (va + memsz) tail htail)
    refine ⟨sz, hsz, hfs, hms, ?_⟩
    intro he
    rw [he] at hfs
    rw [hfs] at hms
    exact Option.some.inj hms

/-- C5 (amended): for every config and linked program for which the writer
succeeds, each emitted `PT_LOAD` header has
`p_filesz = align_up(segment.size, segment_file_align)` and
`p_memsz = align_up(segment.size, page_size)`; the two coincide whenever
`segment_file_align = page_size` (in particular under the default config,
where both are 0x1000). -/
theorem c5_amended_program_headers (cfg : Config) (p : LinkedProgram)
    (phs : List ProgramHeader) (h : write_program_headers cfg p = some phs) :
    List.Forall₂ (phSpec cfg) phs p.segments := by
  simp only [write_program_headers, Option.bind_eq_bind,
    Option.bind_eq_some] at h
  obtain ⟨pfc, hpfc, sizes, hsizes, hw⟩ := h
  exact writeHeadersFrom_spec cfg pfc sizes p.segments 0 cfg.base_addr phs hw

/-- Counterexample for C5 as stated: under the config with
`segment_file_align = 1` and `page_size = 2`, the single segment of size 1
is emitted with `p_filesz = 1` but `p_memsz = 2`, so the two differ and
`p_memsz` is not `align_up(size, segment_file_align) = 1`. -/
theorem c5_filesz_memsz_counterexample :
    (write_program_headers cfgSplit progOne).map
        (fun l => l.map (fun ph => (ph.p_filesz, ph.p_memsz)))
      = some [(1, 2)] ∧ 1 < 2 :=
  ⟨rfl, by decide⟩

/-- Witness for the amended C5 under the default config. -/
theorem c5_amended_witness :
    List.Forall₂ (phSpec cfgDefault)
      [⟨1, 5, 0x1000, 0x400000, 0x400000, 0x1000, 0x1000, 0x1000⟩]
      progOne.segments :=
  c5_amended_program_headers cfgDefault progOne
    [⟨1, 5, 0x1000, 0x400000, 0x400000, 0x1000, 0x1000, 0x1000⟩] (by decide)

/-- C9: the order of the assembled prefix-matched output sections follows
the iteration order of the section-name set, which the source does not
stabilise (it iterates the `HashSet` directly).  For the same input and the
same name set {".text.a", ".text.b"}, the two possible iteration orders
produce differently ordered section lists, so the output bytes depend on
hash iteration order. -/
theorem c9_assembly_order_depends_on_iteration :
    (combine_sections [inputAB] [".text.a", ".text.b"]).map
        (fun l => l.map Section.name) = some [".text.a", ".text.b"] ∧
    (combine_sections [inputAB] [".text.b", ".text.a"]).map
        (fun l => l.map Section.name) = some [".text.b", ".text.a"] ∧
    ([".text.a", ".text.b"] : List String).Perm [".text.b", ".text.a"] :=
  ⟨rfl, rfl, List.Perm.swap _ _ _⟩

end ElfLinker
